import Mathlib

/-!
Verification of the `safedeserialize` package of go-safeinput.

The Go package guards calls into external decoders (JSON, YAML, XML, Gob)
with empty/size checks, target-shape validation via reflection, a JSON
depth measurer, and a type-whitelist registry.  This file is a shallow
embedding of that code:

* Go reflect types are modelled by the inductive `Ty`; struct types are
  identified by name and their field lists live in an environment `Env`
  (this models the — possibly cyclic — type graph of a Go program).
* A deserialization destination (`v interface{}` in Go) is modelled by
  `GoVal`: the nil interface, a non-pointer value, a typed nil pointer,
  or a non-nil pointer to a value of some type.
* Byte buffers and streams are `List Nat` (one `Nat` per byte); a Go
  `io.Reader` is modelled by the byte sequence it would yield, and
  `io.LimitReader r n` becomes `List.take`.
* The external decoders are opaque: a pipeline run ends in a
  `DecodeResult` that records either which guard error was returned or
  exactly which bytes, and in which strictness mode, were handed to the
  external decoder.
* `validateStructFields` uses a mutable visited map for cycle
  protection; the embedding threads the visited list explicitly and uses
  a fuel parameter (`Nat`) in place of Go's unbounded recursion.  The
  fuel `env.length + 1` is proved sufficient below (claim C9), so the
  `none` (out-of-fuel) branch is unreachable at that fuel.
-/

namespace SafeDeserialize

/-- Go reflect types, as far as the guard inspects them.  `structRef s`
is a struct type identified by its name `s`; its fields are found in the
ambient `Env`.  `base s` is any other concrete kind (int, string, ...)
with type-string `s`. -/
inductive Ty where
  | ptr : Ty → Ty
  | iface : Ty
  | mapTy : Ty → Ty → Ty
  | slice : Ty → Ty
  | structRef : String → Ty
  | base : String → Ty
deriving DecidableEq, Repr

/-- One struct field: name, exported flag, and type. -/
structure Field where
  fname : String
  exported : Bool
  ty : Ty
deriving DecidableEq, Repr

/-- The type graph: struct name ↦ field list.  Cyclic graphs are simply
environments whose field types refer back to earlier names. -/
abbrev Env := List (String × List Field)

/-- Field list of a named struct (a name absent from the environment has
no fields). -/
def lookupFields (env : Env) (s : String) : List Field :=
  match env.find? (fun p => p.1 = s) with
  | some p => p.2
  | none => []

/-- Go's `reflect.Type.String()` for the modelled types. -/
def typeString : Ty → String
  | .ptr t => "*" ++ typeString t
  | .iface => "interface \x7b\x7d"
  | .mapTy k v => "map[" ++ typeString k ++ "]" ++ typeString v
  | .slice t => "[]" ++ typeString t
  | .structRef s => s
  | .base s => s

/-- The pointer-dereferencing loop `for t.Kind() == reflect.Ptr { t = t.Elem() }`. -/
def derefPtr : Ty → Ty
  | .ptr t => derefPtr t
  | t => t

/-- `t.Kind() == reflect.Interface`. -/
def Ty.isIfaceKind : Ty → Bool
  | .iface => true
  | _ => false

/-- `t.Kind() == reflect.Map && t.Elem().Kind() == reflect.Interface`
(the map check in `validateTarget`; the value kind is not dereferenced). -/
def mapValIface : Ty → Bool
  | .mapTy _ v => v.isIfaceKind
  | _ => false

/-- `t.Kind() == reflect.Slice && t.Elem().Kind() == reflect.Interface`
(the slice check in `validateTarget`; no pointer dereference). -/
def sliceElemIfaceShallow : Ty → Bool
  | .slice e => e.isIfaceKind
  | _ => false

/-- A deserialization destination, i.e. the `v interface{}` argument. -/
inductive GoVal where
  | nilIface : GoVal
  | nonPtr : Ty → GoVal
  | nilPtr : Ty → GoVal
  | ptrTo : Ty → GoVal
deriving DecidableEq, Repr

/-- Errors produced by `validateStructFields`, each naming the offending
struct type and field. -/
inductive ScanErr where
  | ifaceField (t f : String)
  | mapIfaceField (t f : String)
  | sliceIfaceField (t f : String)
deriving DecidableEq, Repr

/-- Errors produced by `validateTarget`. -/
inductive VErr where
  | nilTarget
  | notPointer
  | interfaceTarget
  | mapInterface
  | sliceInterface
  | typeNotAllowed (name : String)
  | structField (e : ScanErr)
deriving DecidableEq, Repr

/-- The `Options` struct. -/
structure Options where
  maxSize : Int
  maxDepth : Int
  allowedTypes : List String
  strictMode : Bool
  allowMapStringInterface : Bool
  allowSliceInterface : Bool
deriving DecidableEq, Repr

/-- `DefaultOptions()`: 1 MiB size cap, depth 32, strict, no dynamic
containers, no whitelist. -/
def DefaultOptions : Options :=
  ⟨1048576, 32, [], true, false, false⟩

/-- The functional-option type `Option func(*Options)` (named `Opt` here
to avoid clashing with Lean's `Option`). -/
abbrev Opt := Options → Options

/-- Field update used by `WithMaxSize`. -/
def setMaxSize (o : Options) (v : Int) : Options :=
  ⟨v, o.maxDepth, o.allowedTypes, o.strictMode, o.allowMapStringInterface, o.allowSliceInterface⟩

/-- Field update used by `WithMaxDepth`. -/
def setMaxDepth (o : Options) (v : Int) : Options :=
  ⟨o.maxSize, v, o.allowedTypes, o.strictMode, o.allowMapStringInterface, o.allowSliceInterface⟩

/-- Field update used by `WithAllowedTypes`. -/
def setAllowedTypes (o : Options) (ts : List String) : Options :=
  ⟨o.maxSize, o.maxDepth, ts, o.strictMode, o.allowMapStringInterface, o.allowSliceInterface⟩

/-- Field update used by `WithStrictMode`. -/
def setStrictMode (o : Options) (b : Bool) : Options :=
  ⟨o.maxSize, o.maxDepth, o.allowedTypes, b, o.allowMapStringInterface, o.allowSliceInterface⟩

/-- `WithMaxSize`: ignores non-positive sizes. -/
def WithMaxSize (size : Int) : Opt :=
  fun o => if size > 0 then setMaxSize o size else o

/-- `WithMaxDepth`: ignores non-positive depths. -/
def WithMaxDepth (depth : Int) : Opt :=
  fun o => if depth > 0 then setMaxDepth o depth else o

/-- `WithAllowedTypes`. -/
def WithAllowedTypes (types : List String) : Opt :=
  fun o => setAllowedTypes o types

/-- `WithStrictMode`. -/
def WithStrictMode (strict : Bool) : Opt :=
  fun o => setStrictMode o strict

/-- `WithAllowMapStringInterface`. -/
def WithAllowMapStringInterface (allow : Bool) : Opt :=
  fun o => ⟨o.maxSize, o.maxDepth, o.allowedTypes, o.strictMode, allow, o.allowSliceInterface⟩

/-- `WithAllowSliceInterface`. -/
def WithAllowSliceInterface (allow : Bool) : Opt :=
  fun o => ⟨o.maxSize, o.maxDepth, o.allowedTypes, o.strictMode, o.allowMapStringInterface, allow⟩

/-- Option resolution performed at the top of every entry point:
start from the defaults, apply each override in order. -/
def applyOpts (os : List Opt) : Options :=
  os.foldl (fun o f => f o) DefaultOptions

/-- The field loop of `validateStructFields`, processing the fields of
struct `s`.  `k` is the recursive call used for nested struct fields
(`validateStructFields` at the next fuel level); the visited list is
threaded through it, exactly like Go's shared mutable `visited` map.
Order of the checks per field follows the Go `switch` on the
dereferenced field kind: interface, map (value kind not dereferenced),
slice (element dereferenced), nested struct. -/
def scanListAux (amv asv : Bool)
    (k : String → List String → Option (Except ScanErr (List String))) :
    String → List Field → List String → Option (Except ScanErr (List String))
  | _, [], vis => some (.ok vis)
  | s, fl :: fs, vis =>
    if fl.exported = false then scanListAux amv asv k s fs vis
    else
      match derefPtr fl.ty with
      | .iface => some (.error (.ifaceField s fl.fname))
      | .mapTy _ vt =>
        if vt.isIfaceKind && !amv then some (.error (.mapIfaceField s fl.fname))
        else scanListAux amv asv k s fs vis
      | .slice et =>
        if (derefPtr et).isIfaceKind && !asv then
          some (.error (.sliceIfaceField s fl.fname))
        else scanListAux amv asv k s fs vis
      | .structRef t =>
        match k t vis with
        | none => none
        | some (.error e) => some (.error e)
        | some (.ok vis') => scanListAux amv asv k s fs vis'
      | _ => scanListAux amv asv k s fs vis

/-- `validateStructFields(t, opts, visited)`.  Returns success at once
when the struct is already visited, otherwise marks it visited and scans
its fields.  `amv`/`asv` are `opts.AllowMapStringInterface` and
`opts.AllowSliceInterface` (the only parts of `Options` the Go function
reads).  Go's recursion is unbounded; the `Nat` fuel stands in for it
and `none` means the fuel ran out — fuel `env.length + 1` never does
(proved below). -/
def scanFields (env : Env) (amv asv : Bool) (fuel : Nat) (s : String)
    (vis : List String) : Option (Except ScanErr (List String)) :=
  if s ∈ vis then some (.ok vis)
  else
    match fuel with
    | 0 => none
    | fuel' + 1 =>
      scanListAux amv asv (scanFields env amv asv fuel') s
        (lookupFields env s) (s :: vis)

/-- `validateTarget(v, opts)`: the ordered shape checks on the
destination.  The `elem.IsValid()` guard of the Go code is omitted: for
a non-nil pointer, `rv.Elem()` is always valid, so that branch is dead.
The struct-field scan runs with fuel `env.length + 1`. -/
def validateTarget (env : Env) (opts : Options) (v : GoVal) :
    Option (Except VErr Unit) :=
  match v with
  | .nilIface => some (.error .nilTarget)
  | .nonPtr _ => some (.error .notPointer)
  | .nilPtr _ => some (.error .nilTarget)
  | .ptrTo t =>
    if t.isIfaceKind then some (.error .interfaceTarget)
    else if mapValIface t && !opts.allowMapStringInterface then
      some (.error .mapInterface)
    else if sliceElemIfaceShallow t && !opts.allowSliceInterface then
      some (.error .sliceInterface)
    else if !opts.allowedTypes.isEmpty && !(opts.allowedTypes.contains (typeString t)) then
      some (.error (.typeNotAllowed (typeString t)))
    else
      match t with
      | .structRef s =>
        if opts.strictMode then
          match scanFields env opts.allowMapStringInterface
              opts.allowSliceInterface (env.length + 1) s [] with
          | none => none
          | some (.error e) => some (.error (.structField e))
          | some (.ok _) => some (.ok ())
        else some (.ok ())
      | _ => some (.ok ())

/-- State of the `measureJSONDepth` loop. -/
structure DepthState where
  maxD : Int
  curD : Int
  inString : Bool
  escaped : Bool
deriving DecidableEq, Repr

/-- One iteration of the `measureJSONDepth` loop, on byte `b`
(92 is a backslash, 34 a double quote, 123/91 open brackets,
125/93 close brackets). -/
def depthStep (st : DepthState) (b : Nat) : DepthState :=
  if st.escaped then ⟨st.maxD, st.curD, st.inString, false⟩
  else if b = 92 && st.inString then ⟨st.maxD, st.curD, st.inString, true⟩
  else if b = 34 then ⟨st.maxD, st.curD, !st.inString, st.escaped⟩
  else if st.inString then st
  else if b = 123 || b = 91 then
    ⟨max st.maxD (st.curD + 1), st.curD + 1, st.inString, st.escaped⟩
  else if b = 125 || b = 93 then
    ⟨st.maxD, st.curD - 1, st.inString, st.escaped⟩
  else st

/-- `measureJSONDepth(data)`. -/
def measureJSONDepth (data : List Nat) : Int :=
  (data.foldl depthStep ⟨0, 0, false, false⟩).maxD

/-- Result of running one decode pipeline.  Guard failures are recorded
as such; when all guards pass, the result records exactly which bytes,
under which mode, were handed to the external decoder (whose behaviour
is outside the guard).  `modelOut` marks scan-fuel exhaustion, a
modelling artifact proved unreachable below. -/
inductive DecodeResult where
  | emptyData
  | dataTooLarge (size limit : Int)
  | targetErr (e : VErr)
  | maxDepthExceeded (depth limit : Int)
  | delegatedJSON (strict : Bool) (data : List Nat)
  | delegatedYAML (strict : Bool) (data : List Nat)
  | delegatedXML (strict : Bool) (data : List Nat)
  | delegatedGob (data : List Nat)
  | modelOut
deriving DecidableEq, Repr

/-- Discriminator for `emptyData`. -/
def DecodeResult.isEmptyData : DecodeResult → Bool
  | .emptyData => true
  | _ => false

/-- Discriminator for `dataTooLarge`. -/
def DecodeResult.isDataTooLarge : DecodeResult → Bool
  | .dataTooLarge _ _ => true
  | _ => false

/-- Discriminator for `maxDepthExceeded`. -/
def DecodeResult.isMaxDepth : DecodeResult → Bool
  | .maxDepthExceeded _ _ => true
  | _ => false

/-- `jsonUnmarshal(data, v, opts)`: empty check, size check, target
validation, strict-mode depth check, then delegation (strict mode uses
`DisallowUnknownFields`). -/
def jsonUnmarshal (env : Env) (data : List Nat) (v : GoVal) (opts : Options) :
    DecodeResult :=
  if data.length = 0 then .emptyData
  else if (data.length : Int) > opts.maxSize then
    .dataTooLarge data.length opts.maxSize
  else
    match validateTarget env opts v with
    | none => .modelOut
    | some (.error e) => .targetErr e
    | some (.ok _) =>
      if opts.strictMode && measureJSONDepth data > opts.maxDepth then
        .maxDepthExceeded (measureJSONDepth data) opts.maxDepth
      else .delegatedJSON opts.strictMode data

/-- `yamlUnmarshal(data, v, opts)`: as JSON but without the depth check
(strict mode uses `KnownFields(true)`). -/
def yamlUnmarshal (env : Env) (data : List Nat) (v : GoVal) (opts : Options) :
    DecodeResult :=
  if data.length = 0 then .emptyData
  else if (data.length : Int) > opts.maxSize then
    .dataTooLarge data.length opts.maxSize
  else
    match validateTarget env opts v with
    | none => .modelOut
    | some (.error e) => .targetErr e
    | some (.ok _) => .delegatedYAML opts.strictMode data

/-- `xmlUnmarshal(data, v, opts)`: as YAML (strict mode toggles the
decoder's `Strict` flag). -/
def xmlUnmarshal (env : Env) (data : List Nat) (v : GoVal) (opts : Options) :
    DecodeResult :=
  if data.length = 0 then .emptyData
  else if (data.length : Int) > opts.maxSize then
    .dataTooLarge data.length opts.maxSize
  else
    match validateTarget env opts v with
    | none => .modelOut
    | some (.error e) => .targetErr e
    | some (.ok _) => .delegatedXML opts.strictMode data

/-- `jsonDecode(r, v, opts)`: validate the target, materialize at most
`maxSize + 1` bytes of the stream, then run the byte-buffer path. -/
def jsonDecode (env : Env) (stream : List Nat) (v : GoVal) (opts : Options) :
    DecodeResult :=
  match validateTarget env opts v with
  | none => .modelOut
  | some (.error e) => .targetErr e
  | some (.ok _) => jsonUnmarshal env (stream.take (opts.maxSize + 1).toNat) v opts

/-- `yamlDecode(r, v, opts)`. -/
def yamlDecode (env : Env) (stream : List Nat) (v : GoVal) (opts : Options) :
    DecodeResult :=
  match validateTarget env opts v with
  | none => .modelOut
  | some (.error e) => .targetErr e
  | some (.ok _) => yamlUnmarshal env (stream.take (opts.maxSize + 1).toNat) v opts

/-- `xmlDecode(r, v, opts)`. -/
def xmlDecode (env : Env) (stream : List Nat) (v : GoVal) (opts : Options) :
    DecodeResult :=
  match validateTarget env opts v with
  | none => .modelOut
  | some (.error e) => .targetErr e
  | some (.ok _) => xmlUnmarshal env (stream.take (opts.maxSize + 1).toNat) v opts

/-- `gobDecode(r, v, opts)`: validate the target, then hand the gob
decoder a reader capped at `maxSize` bytes.  No empty check, no size
error, no materialization. -/
def gobDecode (env : Env) (stream : List Nat) (v : GoVal) (opts : Options) :
    DecodeResult :=
  match validateTarget env opts v with
  | none => .modelOut
  | some (.error e) => .targetErr e
  | some (.ok _) => .delegatedGob (stream.take opts.maxSize.toNat)

/-- Entry point `JSON(data, v, opts...)`. -/
def JSON (env : Env) (data : List Nat) (v : GoVal) (os : List Opt) : DecodeResult :=
  jsonUnmarshal env data v (applyOpts os)

/-- Entry point `JSONReader(r, v, opts...)`. -/
def JSONReader (env : Env) (stream : List Nat) (v : GoVal) (os : List Opt) : DecodeResult :=
  jsonDecode env stream v (applyOpts os)

/-- Entry point `YAML(data, v, opts...)`. -/
def YAML (env : Env) (data : List Nat) (v : GoVal) (os : List Opt) : DecodeResult :=
  yamlUnmarshal env data v (applyOpts os)

/-- Entry point `YAMLReader(r, v, opts...)`. -/
def YAMLReader (env : Env) (stream : List Nat) (v : GoVal) (os : List Opt) : DecodeResult :=
  yamlDecode env stream v (applyOpts os)

/-- Entry point `XML(data, v, opts...)`. -/
def XML (env : Env) (data : List Nat) (v : GoVal) (os : List Opt) : DecodeResult :=
  xmlUnmarshal env data v (applyOpts os)

/-- Entry point `XMLReader(r, v, opts...)`. -/
def XMLReader (env : Env) (stream : List Nat) (v : GoVal) (os : List Opt) : DecodeResult :=
  xmlDecode env stream v (applyOpts os)

/-- Entry point `Gob(data, v, opts...)`: wraps the buffer in a reader
and calls `gobDecode` — so no empty/size check happens for Gob. -/
def Gob (env : Env) (data : List Nat) (v : GoVal) (os : List Opt) : DecodeResult :=
  gobDecode env data v (applyOpts os)

/-- Entry point `GobReader(r, v, opts...)`. -/
def GobReader (env : Env) (stream : List Nat) (v : GoVal) (os : List Opt) : DecodeResult :=
  gobDecode env stream v (applyOpts os)

/-- The `Decoder` facade: one resolved `Options` snapshot. -/
structure Decoder where
  opts : Options
deriving DecidableEq, Repr

/-- `NewDecoder(opts...)`. -/
def NewDecoder (os : List Opt) : Decoder :=
  ⟨applyOpts os⟩

/-- `TypeRegistry`: normalized type name ↦ type.  The Go registry is a
locked map; the embedding is an association list with unique keys (the
lock serializes access, which a pure value needs no counterpart of). -/
abbrev TypeRegistry := List (String × Ty)

/-- `NewTypeRegistry()`. -/
def NewTypeRegistry : TypeRegistry := []

/-- The normalization in `Register`/`IsRegistered`: a single
`if t.Kind() == reflect.Ptr { t = t.Elem() }` — one pointer level only. -/
def stripOnePtr : Ty → Ty
  | .ptr t => t
  | t => t

/-- `Register(v)`: store under the normalized type's string. -/
def Register (r : TypeRegistry) (t : Ty) : TypeRegistry :=
  (typeString (stripOnePtr t), stripOnePtr t) ::
    r.filter (fun p => p.1 ≠ typeString (stripOnePtr t))

/-- `IsRegistered(v)`: same normalization, then a map lookup. -/
def IsRegistered (r : TypeRegistry) (t : Ty) : Bool :=
  (r.find? (fun p => p.1 = typeString (stripOnePtr t))).isSome

/-- `TypeNames()`: the registered names. -/
def TypeNames (r : TypeRegistry) : List String :=
  r.map Prod.fst

/-- `Option()` on the registry (named `regOption` here): the whitelist
override built from the current snapshot. -/
def regOption (r : TypeRegistry) : Opt :=
  WithAllowedTypes (TypeNames r)

/-! ## Claim C7 — defaults and option resolution -/

/-- Claim C7: `DefaultOptions` is ⟨1 MiB, depth 32, no whitelist,
strict, both dynamic-container flags off⟩; every decode entry point
resolves its options by folding the supplied overrides, in order, over
the defaults (so a later override of the same field wins); and
`WithMaxSize`/`WithMaxDepth` with a non-positive argument leave the
options unchanged, raising no error. -/
theorem c7_defaults_and_resolution :
    DefaultOptions = ⟨1048576, 32, [], true, false, false⟩
    ∧ (∀ (os : List Opt) (f : Opt), applyOpts (os ++ [f]) = f (applyOpts os))
    ∧ (∀ (o : Options) (s : Int), s ≤ 0 → WithMaxSize s o = o)
    ∧ (∀ (o : Options) (d : Int), d ≤ 0 → WithMaxDepth d o = o)
    ∧ (∀ env data v os, JSON env data v os = jsonUnmarshal env data v (applyOpts os))
    ∧ (∀ env data v os, YAML env data v os = yamlUnmarshal env data v (applyOpts os))
    ∧ (∀ env data v os, XML env data v os = xmlUnmarshal env data v (applyOpts os))
    ∧ (∀ env data v os, Gob env data v os = gobDecode env data v (applyOpts os))
    ∧ (∀ env stream v os, JSONReader env stream v os = jsonDecode env stream v (applyOpts os))
    ∧ (∀ env stream v os, YAMLReader env stream v os = yamlDecode env stream v (applyOpts os))
    ∧ (∀ env stream v os, XMLReader env stream v os = xmlDecode env stream v (applyOpts os))
    ∧ (∀ env stream v os, GobReader env stream v os = gobDecode env stream v (applyOpts os))
    ∧ (∀ os, NewDecoder os = ⟨applyOpts os⟩) := by
  refine ⟨rfl, ?_, ?_, ?_, fun _ _ _ _ => rfl, fun _ _ _ _ => rfl,
    fun _ _ _ _ => rfl, fun _ _ _ _ => rfl, fun _ _ _ _ => rfl,
    fun _ _ _ _ => rfl, fun _ _ _ _ => rfl, fun _ _ _ _ => rfl, fun _ => rfl⟩
  · intro os f
    simp [applyOpts, List.foldl_append]
  · intro o s hs
    simp only [WithMaxSize]
    rw [if_neg (by omega)]
  · intro o d hd
    simp only [WithMaxDepth]
    rw [if_neg (by omega)]

/-- Witness for C7: the silently-ignored overrides at concrete inputs. -/
theorem c7_witness :
    WithMaxSize 0 DefaultOptions = DefaultOptions
    ∧ WithMaxDepth (-3) DefaultOptions = DefaultOptions :=
  ⟨c7_defaults_and_resolution.2.2.1 DefaultOptions 0 (by decide),
   c7_defaults_and_resolution.2.2.2.1 DefaultOptions (-3) (by decide)⟩

/-! ## Claim C1 — empty/size preamble (corrected: Gob has none) -/

/-- Counterexample to claim C1 as stated: the Gob byte-buffer entry
point neither returns `EmptyData` on empty input nor `DataTooLarge` on
oversized input — it delegates in both cases. -/
theorem c1_counterexample :
    (Gob [] [] (GoVal.ptrTo (Ty.base "int")) []).isEmptyData = false
    ∧ (Gob [] [1, 2, 3] (GoVal.ptrTo (Ty.base "int")) [WithMaxSize 2]).isDataTooLarge = false :=
  ⟨rfl, rfl⟩

/-- Claim C1 as amended: for JSON, YAML and XML (but not Gob), the
byte-buffer entry point returns `EmptyData` on input of length zero and,
for non-empty input whose length exceeds `maxSize`, `DataTooLarge`
reporting the observed length and the limit — for every destination and
options, i.e. before target validation, content inspection or
delegation.  The Gob byte-buffer entry point performs neither check: it
validates the target and delegates at most `maxSize` bytes to the gob
decoder. -/
theorem c1_size_preamble_amended (env : Env) (os : List Opt) (data : List Nat) (v : GoVal) :
    (data = [] →
      JSON env data v os = .emptyData
      ∧ YAML env data v os = .emptyData
      ∧ XML env data v os = .emptyData)
    ∧ (data ≠ [] → (data.length : Int) > (applyOpts os).maxSize →
      JSON env data v os = .dataTooLarge data.length (applyOpts os).maxSize
      ∧ YAML env data v os = .dataTooLarge data.length (applyOpts os).maxSize
      ∧ XML env data v os = .dataTooLarge data.length (applyOpts os).maxSize)
    ∧ (validateTarget env (applyOpts os) v = some (.ok ()) →
      Gob env data v os = .delegatedGob (data.take (applyOpts os).maxSize.toNat)) := by
  refine ⟨?_, ?_, ?_⟩
  · rintro rfl
    exact ⟨rfl, rfl, rfl⟩
  · intro hne hsz
    have h0 : ¬ data.length = 0 := by simpa using hne
    refine ⟨?_, ?_, ?_⟩ <;>
      simp [JSON, YAML, XML, jsonUnmarshal, yamlUnmarshal, xmlUnmarshal, h0, hsz]
  · intro hv
    simp [Gob, gobDecode, hv]

/-- Witness for C1 (amended): concrete empty and oversized inputs. -/
theorem c1_witness :
    JSON [] [] (GoVal.ptrTo (Ty.base "int")) [] = .emptyData
    ∧ JSON [] [1, 2, 3] (GoVal.ptrTo (Ty.base "int")) [WithMaxSize 2] = .dataTooLarge 3 2
    ∧ Gob [] [1, 2, 3] (GoVal.ptrTo (Ty.base "int")) [WithMaxSize 2] = .delegatedGob [1, 2] := by
  refine ⟨((c1_size_preamble_amended [] [] [] _).1 rfl).1, ?_, ?_⟩
  · exact ((c1_size_preamble_amended [] [WithMaxSize 2] [1, 2, 3] _).2.1
      (by decide) (by decide)).1
  · exact (c1_size_preamble_amended [] [WithMaxSize 2] [1, 2, 3]
      (GoVal.ptrTo (Ty.base "int"))).2.2 rfl

/-! ## Claim C2 — stream entry points (corrected: Gob differs) -/

/-- Counterexample to claim C2 as stated: a Gob stream whose contents
exceed `maxSize` does not yield `DataTooLarge`; the stream entry point
truncates to `maxSize` (not `maxSize + 1`) and delegates without
materializing. -/
theorem c2_counterexample :
    (GobReader [] [1, 2, 3, 4] (GoVal.ptrTo (Ty.base "int")) [WithMaxSize 2]).isDataTooLarge = false
    ∧ GobReader [] [1, 2, 3, 4] (GoVal.ptrTo (Ty.base "int")) [WithMaxSize 2]
      = .delegatedGob [1, 2] :=
  ⟨rfl, rfl⟩

/-- Claim C2 as amended: for JSON, YAML and XML, the stream entry point
first validates the target, then materializes at most `maxSize + 1`
bytes and behaves exactly as the byte-buffer entry point applied to the
materialized bytes; in particular (for a non-negative `maxSize`) a
stream whose contents exceed `maxSize` yields `DataTooLarge`.  The Gob
stream entry point materializes nothing: it hands the gob decoder a
reader capped at `maxSize` bytes and can never yield `DataTooLarge`. -/
theorem c2_stream_materialization_amended (env : Env) (os : List Opt)
    (stream : List Nat) (v : GoVal)
    (hv : validateTarget env (applyOpts os) v = some (.ok ())) :
    (JSONReader env stream v os
        = JSON env (stream.take ((applyOpts os).maxSize + 1).toNat) v os
      ∧ YAMLReader env stream v os
        = YAML env (stream.take ((applyOpts os).maxSize + 1).toNat) v os
      ∧ XMLReader env stream v os
        = XML env (stream.take ((applyOpts os).maxSize + 1).toNat) v os
      ∧ GobReader env stream v os
        = .delegatedGob (stream.take (applyOpts os).maxSize.toNat))
    ∧ (0 ≤ (applyOpts os).maxSize → (stream.length : Int) > (applyOpts os).maxSize →
      JSONReader env stream v os
        = .dataTooLarge ((applyOpts os).maxSize + 1) (applyOpts os).maxSize
      ∧ YAMLReader env stream v os
        = .dataTooLarge ((applyOpts os).maxSize + 1) (applyOpts os).maxSize
      ∧ XMLReader env stream v os
        = .dataTooLarge ((applyOpts os).maxSize + 1) (applyOpts os).maxSize) := by
  have hjson : JSONReader env stream v os
      = JSON env (stream.take ((applyOpts os).maxSize + 1).toNat) v os := by
    simp [JSONReader, JSON, jsonDecode, hv]
  have hyaml : YAMLReader env stream v os
      = YAML env (stream.take ((applyOpts os).maxSize + 1).toNat) v os := by
    simp [YAMLReader, YAML, yamlDecode, hv]
  have hxml : XMLReader env stream v os
      = XML env (stream.take ((applyOpts os).maxSize + 1).toNat) v os := by
    simp [XMLReader, XML, xmlDecode, hv]
  refine ⟨⟨hjson, hyaml, hxml, by simp [GobReader, gobDecode, hv]⟩, ?_⟩
  intro hnn hsz
  set M : Int := (applyOpts os).maxSize with hM
  have htn : (M + 1).toNat = M.toNat + 1 := by omega
  have hlen : (stream.take ((M + 1).toNat)).length = M.toNat + 1 := by
    rw [List.length_take, htn]
    omega
  have hlenI : ((stream.take ((M + 1).toNat)).length : Int) = M + 1 := by
    rw [hlen]
    omega
  have h0 : ¬ (stream.take ((M + 1).toNat)).length = 0 := by omega
  have hgt : ((stream.take ((M + 1).toNat)).length : Int) > M := by omega
  refine ⟨?_, ?_, ?_⟩
  · rw [hjson]
    simp only [JSON, jsonUnmarshal, ← hM, if_neg h0, if_pos hgt, hlenI]
    rw [if_pos (show M + 1 > M by omega)]
  · rw [hyaml]
    simp only [YAML, yamlUnmarshal, ← hM, if_neg h0, if_pos hgt, hlenI]
    rw [if_pos (show M + 1 > M by omega)]
  · rw [hxml]
    simp only [XML, xmlUnmarshal, ← hM, if_neg h0, if_pos hgt, hlenI]
    rw [if_pos (show M + 1 > M by omega)]

/-- Witness for C2 (amended): a 4-byte stream against a 2-byte limit. -/
theorem c2_witness :
    JSONReader [] [9, 9, 9, 9] (GoVal.ptrTo (Ty.base "int")) [WithMaxSize 2]
      = .dataTooLarge 3 2
    ∧ GobReader [] [9, 9, 9, 9] (GoVal.ptrTo (Ty.base "int")) [WithMaxSize 2]
      = .delegatedGob [9, 9] := by
  refine ⟨?_, ?_⟩
  · exact ((c2_stream_materialization_amended [] [WithMaxSize 2] [9, 9, 9, 9]
      (GoVal.ptrTo (Ty.base "int")) rfl).2 (by decide) (by decide)).1
  · exact (c2_stream_materialization_amended [] [WithMaxSize 2] [9, 9, 9, 9]
      (GoVal.ptrTo (Ty.base "int")) rfl).1.2.2.2

/-! ## Claim C6 — the pre-decode depth check is JSON-and-strict only -/

/-- Claim C6: only the JSON pipeline runs a pre-decode depth check, and
only in strict mode.  The YAML, XML and Gob pipelines (byte-buffer and
stream) never return `MaxDepthExceeded`; with `strictMode` false the
JSON pipeline never returns it either; and in strict mode, once the
empty/size/target guards pass, a measured depth above `maxDepth` yields
`MaxDepthExceeded` reporting the observed depth and the limit. -/
theorem c6_depth_check_asymmetry (env : Env) (data : List Nat) (v : GoVal)
    (opts : Options) :
    (yamlUnmarshal env data v opts).isMaxDepth = false
    ∧ (xmlUnmarshal env data v opts).isMaxDepth = false
    ∧ (yamlDecode env data v opts).isMaxDepth = false
    ∧ (xmlDecode env data v opts).isMaxDepth = false
    ∧ (gobDecode env data v opts).isMaxDepth = false
    ∧ (opts.strictMode = false →
        (jsonUnmarshal env data v opts).isMaxDepth = false
        ∧ (jsonDecode env data v opts).isMaxDepth = false)
    ∧ (opts.strictMode = true → data ≠ [] →
        (data.length : Int) ≤ opts.maxSize →
        validateTarget env opts v = some (.ok ()) →
        measureJSONDepth data > opts.maxDepth →
        jsonUnmarshal env data v opts
          = .maxDepthExceeded (measureJSONDepth data) opts.maxDepth) := by
  have hyaml : ∀ d, (yamlUnmarshal env d v opts).isMaxDepth = false := by
    intro d
    unfold yamlUnmarshal
    split
    · rfl
    · split
      · rfl
      · rcases h : validateTarget env opts v with _ | e
        · rfl
        · rcases e with e | u
          · rfl
          · rfl
  have hxml : ∀ d, (xmlUnmarshal env d v opts).isMaxDepth = false := by
    intro d
    unfold xmlUnmarshal
    split
    · rfl
    · split
      · rfl
      · rcases h : validateTarget env opts v with _ | e
        · rfl
        · rcases e with e | u
          · rfl
          · rfl
  refine ⟨hyaml data, hxml data, ?_, ?_, ?_, ?_, ?_⟩
  · unfold yamlDecode
    rcases h : validateTarget env opts v with _ | e
    · rfl
    · rcases e with e | u
      · rfl
      · exact hyaml _
  · unfold xmlDecode
    rcases h : validateTarget env opts v with _ | e
    · rfl
    · rcases e with e | u
      · rfl
      · exact hxml _
  · unfold gobDecode
    rcases h : validateTarget env opts v with _ | e
    · rfl
    · rcases e with e | u
      · rfl
      · rfl
  · intro hs
    have hjson : ∀ d, (jsonUnmarshal env d v opts).isMaxDepth = false := by
      intro d
      unfold jsonUnmarshal
      split
      · rfl
      · split
        · rfl
        · rcases h : validateTarget env opts v with _ | e
          · rfl
          · rcases e with e | u
            · rfl
            · simp [hs, DecodeResult.isMaxDepth]
    refine ⟨hjson data, ?_⟩
    unfold jsonDecode
    rcases h : validateTarget env opts v with _ | e
    · rfl
    · rcases e with e | u
      · rfl
      · exact hjson _
  · intro hs hne hsz hv hd
    have h0 : ¬ data.length = 0 := by simpa using hne
    simp [jsonUnmarshal, h0, not_lt.mpr hsz, hv, hs, hd]

/-- Witness for C6: JSON nested two deep against limit one is rejected
with the observed depth and the limit. -/
theorem c6_witness :
    jsonUnmarshal [] [91, 91, 93, 93] (GoVal.ptrTo (Ty.base "int"))
      (applyOpts [WithMaxDepth 1]) = .maxDepthExceeded 2 1 := by
  have h := (c6_depth_check_asymmetry [] [91, 91, 93, 93]
    (GoVal.ptrTo (Ty.base "int")) (applyOpts [WithMaxDepth 1])).2.2.2.2.2.2
  have hd : measureJSONDepth [91, 91, 93, 93] = 2 := by decide
  calc jsonUnmarshal [] [91, 91, 93, 93] (GoVal.ptrTo (Ty.base "int"))
        (applyOpts [WithMaxDepth 1])
      = .maxDepthExceeded (measureJSONDepth [91, 91, 93, 93])
          (applyOpts [WithMaxDepth 1]).maxDepth :=
        h rfl (by decide) (by decide) rfl (by decide)
    _ = .maxDepthExceeded 2 1 := by rw [hd]; rfl

/-! ## Claim C5 — the depth measurer -/

/-- Spec-side reading of the input: the sequence of bracket events
(`1` for `{`/`[`, `-1` for `}`/`]`) occurring outside string literals,
where a `"` outside an active escape toggles the in-string flag and a
backslash inside a string consumes the following character.  Characters
inside string literals produce no event. -/
def bracketsOutside : Bool → Bool → List Nat → List Int
  | inS, _, [] => (fun _ => []) inS
  | inS, esc, b :: bs =>
    if esc then bracketsOutside inS false bs
    else if b = 92 && inS then bracketsOutside inS true bs
    else if b = 34 then bracketsOutside (!inS) esc bs
    else if inS then bracketsOutside inS esc bs
    else if b = 123 || b = 91 then 1 :: bracketsOutside inS esc bs
    else if b = 125 || b = 93 then (-1 : Int) :: bracketsOutside inS esc bs
    else bracketsOutside inS esc bs

/-- Maximum nesting depth of a bracket-event sequence: the maximum,
over all prefixes, of the running balance (the empty prefix contributes
`0`, so a flat `{}` has depth 1 and an empty sequence depth 0). -/
def maxNesting : List Int → Int
  | [] => 0
  | x :: xs => max 0 (x + maxNesting xs)

/-- The scanner restricted to bracket events: what `depthStep` does to
`(maxD, curD)` on an open (`1`) or close (other) event. -/
def bracketStep : Int × Int → Int → Int × Int
  | (m, c), x => if x = 1 then (max m (c + 1), c + 1) else (m, c - 1)

/-- Folding the bracket events. -/
def bracketFold (mc : Int × Int) (l : List Int) : Int × Int :=
  l.foldl bracketStep mc

/-- Maximum, over prefixes ending in an open event, of the running
balance started at `c`; `none` when there is no open event. -/
def openMax (c : Int) : List Int → Option Int
  | [] => none
  | x :: xs =>
    if x = 1 then some (max (c + 1) ((openMax (c + 1) xs).getD (c + 1)))
    else openMax (c - 1) xs

/-- Every bracket event is an open or a close. -/
theorem bracketsOutside_mem :
    ∀ (inS esc : Bool) (data : List Nat) (x : Int),
      x ∈ bracketsOutside inS esc data → x = 1 ∨ x = -1
  | _, _, [], x, hx => absurd hx (by simp [bracketsOutside])
  | inS, esc, b :: bs, x, hx => by
    rw [bracketsOutside] at hx
    split_ifs at hx with h1 h2 h3 h4 h5 h6
    · exact bracketsOutside_mem inS false bs x hx
    · exact bracketsOutside_mem inS true bs x hx
    · exact bracketsOutside_mem (!inS) esc bs x hx
    · exact bracketsOutside_mem inS esc bs x hx
    · rcases List.mem_cons.mp hx with h | h
      · exact Or.inl h
      · exact bracketsOutside_mem inS esc bs x h
    · rcases List.mem_cons.mp hx with h | h
      · exact Or.inr h
      · exact bracketsOutside_mem inS esc bs x h
    · exact bracketsOutside_mem inS esc bs x hx

/-- Iterating `depthStep` tracks `bracketFold` of the outside-string
bracket events: the string-handling bytes change neither `maxD` nor
`curD`. -/
theorem depth_fold_brackets :
    ∀ (data : List Nat) (m c : Int) (inS esc : Bool),
      (data.foldl depthStep ⟨m, c, inS, esc⟩).maxD
          = (bracketFold (m, c) (bracketsOutside inS esc data)).1
      ∧ (data.foldl depthStep ⟨m, c, inS, esc⟩).curD
          = (bracketFold (m, c) (bracketsOutside inS esc data)).2
  | [], _, _, _, _ => ⟨rfl, rfl⟩
  | b :: bs, m, c, inS, esc => by
    rw [List.foldl_cons, bracketsOutside, depthStep]
    split_ifs with h1 h2 h3 h4 h5 h6
    · exact depth_fold_brackets bs m c inS false
    · exact depth_fold_brackets bs m c inS true
    · exact depth_fold_brackets bs m c (!inS) esc
    · exact depth_fold_brackets bs m c inS esc
    · have := depth_fold_brackets bs (max m (c + 1)) (c + 1) inS esc
      simpa [bracketFold, bracketStep] using this
    · have := depth_fold_brackets bs m (c - 1) inS esc
      simpa [bracketFold, bracketStep] using this
    · exact depth_fold_brackets bs m c inS esc

/-- The first component of `bracketFold` is the initial maximum joined
with the best open-ending prefix. -/
theorem bracketFold_fst_eq_openMax :
    ∀ (l : List Int) (m c : Int),
      (bracketFold (m, c) l).1 = max m ((openMax c l).getD m)
  | [], m, c => by simp [bracketFold, openMax]
  | x :: xs, m, c => by
    rw [bracketFold, List.foldl_cons]
    by_cases hx : x = 1
    · subst hx
      have ih := bracketFold_fst_eq_openMax xs (max m (c + 1)) (c + 1)
      rw [show bracketStep (m, c) 1 = (max m (c + 1), c + 1) from rfl]
      rw [show bracketFold (max m (c + 1), c + 1) xs
            = (bracketFold (max m (c + 1), c + 1) xs) from rfl] at ih
      rw [bracketFold] at ih
      rw [ih, openMax]
      simp only [if_pos rfl]
      rcases h : openMax (c + 1) xs with _ | v <;> simp [h]
      all_goals omega
    · have ih := bracketFold_fst_eq_openMax xs m (c - 1)
      rw [show bracketStep (m, c) x = (m, c - 1) from if_neg hx]
      rw [bracketFold] at ih
      rw [ih, openMax, if_neg hx]

/-- Joining the start balance with the best open-ending prefix computes
the maximum prefix balance. -/
theorem openMax_eq_maxNesting :
    ∀ (l : List Int), (∀ x ∈ l, x = 1 ∨ x = -1) →
      ∀ c : Int, max c ((openMax c l).getD c) = c + maxNesting l
  | [], _, c => by simp [openMax, maxNesting]
  | x :: xs, hmem, c => by
    have hxs : ∀ y ∈ xs, y = 1 ∨ y = -1 :=
      fun y hy => hmem y (List.mem_cons_of_mem x hy)
    rcases hmem x (List.mem_cons_self x xs) with hx | hx
    · subst hx
      have ih := openMax_eq_maxNesting xs hxs (c + 1)
      have hopen : openMax c (1 :: xs)
          = some (max (c + 1) ((openMax (c + 1) xs).getD (c + 1))) := by
        rw [openMax]
        simp
      rw [hopen, Option.getD_some, maxNesting]
      rcases h : openMax (c + 1) xs with _ | v <;>
        rw [h] at ih <;> try rw [h]
      all_goals simp only [Option.getD_none, Option.getD_some] at ih ⊢
      all_goals omega
    · subst hx
      have ih := openMax_eq_maxNesting xs hxs (c - 1)
      have hclose : openMax c ((-1 : Int) :: xs) = openMax (c - 1) xs := by
        rw [openMax]
        norm_num
      rw [hclose, maxNesting]
      rcases h : openMax (c - 1) xs with _ | v <;>
        rw [h] at ih <;> try rw [h]
      all_goals simp only [Option.getD_none, Option.getD_some] at ih ⊢
      all_goals omega

/-- Claim C5: `measureJSONDepth` returns the maximum nesting depth of
`{`/`[` brackets encountered outside string literals (quote toggling and
backslash escapes as in the claim): it equals the maximum prefix balance
of the outside-string bracket events; consequently bytes inside string
literals (escaped quotes included) never affect the result.  A flat
object or array measures 1 and empty input measures 0. -/
theorem c5_depth_semantics :
    (∀ data, measureJSONDepth data = maxNesting (bracketsOutside false false data))
    ∧ measureJSONDepth [] = 0
    ∧ measureJSONDepth [123, 125] = 1
    ∧ measureJSONDepth [91, 93] = 1
    ∧ (∀ d₁ d₂, bracketsOutside false false d₁ = bracketsOutside false false d₂ →
        measureJSONDepth d₁ = measureJSONDepth d₂) := by
  have key : ∀ data, measureJSONDepth data = maxNesting (bracketsOutside false false data) := by
    intro data
    have h := (depth_fold_brackets data 0 0 false false).1
    have hb1 := bracketFold_fst_eq_openMax (bracketsOutside false false data) 0 0
    have hb2 := openMax_eq_maxNesting (bracketsOutside false false data)
      (bracketsOutside_mem false false data) 0
    rw [measureJSONDepth, h, hb1]
    rcases hm : openMax 0 (bracketsOutside false false data) with _ | v <;>
      rw [hm] at hb2 <;>
      simp only [Option.getD_none, Option.getD_some] at hb2 ⊢ <;> omega
  exact ⟨key, by decide, by decide, by decide,
    fun d₁ d₂ hb => by rw [key d₁, key d₂, hb]⟩

/-- Witness for C5: the bracket inside the string literal of
`{"[]"}` does not affect the measured depth of `{""}`. -/
theorem c5_witness :
    bracketsOutside false false [123, 34, 91, 93, 34, 125]
      = bracketsOutside false false [123, 34, 34, 125]
    ∧ measureJSONDepth [123, 34, 91, 93, 34, 125]
      = measureJSONDepth [123, 34, 34, 125] :=
  ⟨by decide, c5_depth_semantics.2.2.2.2 _ _ (by decide)⟩

/-! ## Claim C8 — the type registry (corrected: one pointer level) -/

/-- Counterexample to claim C8 as stated: for a value `V` whose type is
itself a pointer (`*int`), registering `V` stores the pointee name
`int`, but `IsRegistered(&V)` normalizes `**int` by exactly one pointer
level to `*int`, which was never stored — so it reports `false`. -/
theorem c8_counterexample :
    IsRegistered (Register NewTypeRegistry (Ty.ptr (Ty.base "int")))
      (Ty.ptr (Ty.ptr (Ty.base "int"))) = false :=
  rfl

/-- Claim C8 as amended: registration normalizes exactly one pointer
level.  For every value `V` of non-pointer type, after `Register(V)`
both `IsRegistered(V)` and `IsRegistered(&V)` return `true`; a type
whose normalized name was never stored reports `false`; and the
registry's `Option()` is exactly `WithAllowedTypes` applied to the
current `TypeNames` snapshot. -/
theorem c8_registry_amended (r : TypeRegistry) (t : Ty) :
    ((∀ u, t ≠ Ty.ptr u) →
      IsRegistered (Register r t) t = true
      ∧ IsRegistered (Register r t) (Ty.ptr t) = true)
    ∧ (typeString (stripOnePtr t) ∉ TypeNames r → IsRegistered r t = false)
    ∧ regOption r = WithAllowedTypes (TypeNames r) := by
  refine ⟨?_, ?_, rfl⟩
  · intro hnp
    have hst : stripOnePtr t = t := by
      cases t with
      | ptr u => exact absurd rfl (hnp u)
      | _ => rfl
    constructor
    · simp [IsRegistered, Register, hst, List.find?_cons]
    · simp [IsRegistered, Register, hst, stripOnePtr, List.find?_cons]
  · intro hmem
    have hnone : r.find? (fun p => p.1 = typeString (stripOnePtr t)) = none := by
      rw [List.find?_eq_none]
      intro p hp
      simp only [decide_eq_true_eq]
      intro hEq
      exact hmem (hEq ▸ List.mem_map_of_mem Prod.fst hp)
    simp [IsRegistered, hnone]

/-- Witness for C8 (amended): registering `int` makes both the value
and its pointer registered; an empty registry reports `false`. -/
theorem c8_witness :
    IsRegistered (Register NewTypeRegistry (Ty.base "int")) (Ty.base "int") = true
    ∧ IsRegistered (Register NewTypeRegistry (Ty.base "int")) (Ty.ptr (Ty.base "int")) = true
    ∧ IsRegistered NewTypeRegistry (Ty.base "bool") = false :=
  ⟨((c8_registry_amended NewTypeRegistry (Ty.base "int")).1
      (fun u h => Ty.noConfusion h)).1,
   ((c8_registry_amended NewTypeRegistry (Ty.base "int")).1
      (fun u h => Ty.noConfusion h)).2,
   (c8_registry_amended NewTypeRegistry (Ty.base "bool")).2.1 (by simp [TypeNames, NewTypeRegistry])⟩

/-! ## Claim C4 — the ordered checks of the target validator -/

/-- Spec-side reading of C4, step 4: the referenced kind is fully
dynamic. -/
def specFullyDynamic : Ty → Bool
  | .iface => true
  | _ => false

/-- Spec-side reading of C4, step 5: keyed container with fully dynamic
value kind. -/
def specMapWithDynamicValues : Ty → Bool
  | .mapTy _ .iface => true
  | _ => false

/-- Spec-side reading of C4, step 6: ordered container with fully
dynamic element kind. -/
def specSliceWithDynamicElements : Ty → Bool
  | .slice .iface => true
  | _ => false

/-- Spec-side reading of claim C4: the enumerated checks, in the
claimed order, each returning the claimed error, short-circuiting on the
first failure. -/
def validateTargetSpec (env : Env) (opts : Options) (v : GoVal) :
    Option (Except VErr Unit) :=
  match v with
  | .nilIface => some (.error .nilTarget)
  | .nonPtr _ => some (.error .notPointer)
  | .nilPtr _ => some (.error .nilTarget)
  | .ptrTo t =>
    if specFullyDynamic t then some (.error .interfaceTarget)
    else if specMapWithDynamicValues t && !opts.allowMapStringInterface then
      some (.error .mapInterface)
    else if specSliceWithDynamicElements t && !opts.allowSliceInterface then
      some (.error .sliceInterface)
    else if decide (opts.allowedTypes ≠ []) && decide (typeString t ∉ opts.allowedTypes) then
      some (.error (.typeNotAllowed (typeString t)))
    else
      match t with
      | .structRef s =>
        if opts.strictMode then
          match scanFields env opts.allowMapStringInterface
              opts.allowSliceInterface (env.length + 1) s [] with
          | none => none
          | some (.error e) => some (.error (.structField e))
          | some (.ok _) => some (.ok ())
        else some (.ok ())
      | _ => some (.ok ())

/-- The code's interface-kind test agrees with the spec's. -/
theorem isIfaceKind_eq_spec : ∀ t : Ty, t.isIfaceKind = specFullyDynamic t
  | .ptr _ => rfl
  | .iface => rfl
  | .mapTy _ _ => rfl
  | .slice _ => rfl
  | .structRef _ => rfl
  | .base _ => rfl

/-- The code's map test agrees with the spec's. -/
theorem mapValIface_eq_spec : ∀ t : Ty, mapValIface t = specMapWithDynamicValues t
  | .mapTy _ w => by cases w <;> rfl
  | .ptr _ => rfl
  | .iface => rfl
  | .slice _ => rfl
  | .structRef _ => rfl
  | .base _ => rfl

/-- The code's slice test agrees with the spec's. -/
theorem sliceElemIface_eq_spec :
    ∀ t : Ty, sliceElemIfaceShallow t = specSliceWithDynamicElements t
  | .slice w => by cases w <;> rfl
  | .ptr _ => rfl
  | .iface => rfl
  | .mapTy _ _ => rfl
  | .structRef _ => rfl
  | .base _ => rfl

/-- The code's whitelist test (`len > 0` and not `contains`) agrees with
the spec's (non-empty and name absent). -/
theorem whitelist_cond_eq (l : List String) (x : String) :
    (!l.isEmpty && !(l.contains x))
      = (decide (l ≠ []) && decide (x ∉ l)) := by
  cases l <;> simp

/-- Claim C4: `validateTarget` performs exactly the claimed checks in
the claimed order, returning the first failure: nil destination, then
non-pointer, then nil pointer, then fully-dynamic kind, then dynamic
map values, then dynamic slice elements, then the whitelist, then (in
strict mode, for struct kinds) the struct field scan, otherwise
success. -/
theorem c4_validate_order (env : Env) (opts : Options) (v : GoVal) :
    validateTarget env opts v = validateTargetSpec env opts v := by
  cases v with
  | nilIface => rfl
  | nonPtr t => rfl
  | nilPtr t => rfl
  | ptrTo t =>
    simp only [validateTarget, validateTargetSpec, isIfaceKind_eq_spec,
      mapValIface_eq_spec, sliceElemIface_eq_spec, whitelist_cond_eq]

/-! ## The struct-field scanner: invariants for claims C3, C9, C10 -/

/-- A (dereferenced) field type that the scanner flags, given the two
allow-flags: fully dynamic, dynamic-valued map, or dynamic-element
slice. -/
def badFieldTy (amv asv : Bool) : Ty → Bool
  | .iface => true
  | .mapTy _ vt => vt.isIfaceKind && !amv
  | .slice et => (derefPtr et).isIfaceKind && !asv
  | _ => false

/-- A struct none of whose exported fields is flagged. -/
def CleanDirect (env : Env) (amv asv : Bool) (s : String) : Prop :=
  ∀ fl ∈ lookupFields env s, fl.exported = true →
    badFieldTy amv asv (derefPtr fl.ty) = false

/-- A struct some exported field of which is flagged. -/
def BadDirect (env : Env) (amv asv : Bool) (s : String) : Prop :=
  ∃ fl, fl ∈ lookupFields env s ∧ fl.exported = true ∧
    badFieldTy amv asv (derefPtr fl.ty) = true

/-- Struct `b` is a direct scan successor of struct `a`: some exported
field of `a` dereferences to the struct type `b`. -/
def succTy (env : Env) (a b : String) : Prop :=
  ∃ fl, fl ∈ lookupFields env a ∧ fl.exported = true ∧
    derefPtr fl.ty = Ty.structRef b

/-- Reachability along scan successors. -/
inductive Reach (env : Env) : String → String → Prop
  | refl (s : String) : Reach env s s
  | step {a b c : String} : succTy env a b → Reach env b c → Reach env a c

/-- Some struct with a flagged exported field is reachable from `s`. -/
def ReachesBad (env : Env) (amv asv : Bool) (s : String) : Prop :=
  ∃ x, Reach env s x ∧ BadDirect env amv asv x

/-- A scan error is genuine: the named struct really has an exported
field of the named name whose dereferenced type is flagged as the error
says. -/
def scanErrValid (env : Env) (amv asv : Bool) : ScanErr → Prop
  | .ifaceField t f => ∃ fl, fl ∈ lookupFields env t ∧ fl.exported = true
      ∧ fl.fname = f ∧ derefPtr fl.ty = Ty.iface
  | .mapIfaceField t f => ∃ fl, fl ∈ lookupFields env t ∧ fl.exported = true
      ∧ fl.fname = f
      ∧ (∃ kt vt, derefPtr fl.ty = Ty.mapTy kt vt ∧ vt.isIfaceKind = true)
      ∧ amv = false
  | .sliceIfaceField t f => ∃ fl, fl ∈ lookupFields env t ∧ fl.exported = true
      ∧ fl.fname = f
      ∧ (∃ et, derefPtr fl.ty = Ty.slice et ∧ (derefPtr et).isIfaceKind = true)
      ∧ asv = false

/-- An already-visited struct succeeds immediately, at any fuel. -/
theorem scanFields_visited (env : Env) (amv asv : Bool) (fuel : Nat)
    (s : String) (vis : List String) (h : s ∈ vis) :
    scanFields env amv asv fuel s vis = some (.ok vis) := by
  rw [scanFields.eq_def, if_pos h]

/-- Unvisited struct, no fuel: the model gives up. -/
theorem scanFields_zero (env : Env) (amv asv : Bool) (s : String)
    (vis : List String) (h : s ∉ vis) :
    scanFields env amv asv 0 s vis = none := by
  rw [scanFields.eq_def, if_neg h]

/-- Unvisited struct, fuel available: mark it visited and scan its
fields. -/
theorem scanFields_succ (env : Env) (amv asv : Bool) (fuel' : Nat)
    (s : String) (vis : List String) (h : s ∉ vis) :
    scanFields env amv asv (fuel' + 1) s vis
      = scanListAux amv asv (scanFields env amv asv fuel') s
          (lookupFields env s) (s :: vis) := by
  rw [scanFields.eq_def, if_neg h]

/-- Field loop, empty list: success with the current visited list. -/
theorem scanListAux_nil (amv asv : Bool)
    (k : String → List String → Option (Except ScanErr (List String)))
    (s : String) (vis : List String) :
    scanListAux amv asv k s [] vis = some (.ok vis) := by
  rw [scanListAux]

/-- Field loop: an unexported field is skipped. -/
theorem scanListAux_cons_skip (amv asv : Bool)
    (k : String → List String → Option (Except ScanErr (List String)))
    (s : String) (fl : Field) (fs : List Field) (vis : List String)
    (hexp : fl.exported = false) :
    scanListAux amv asv k s (fl :: fs) vis = scanListAux amv asv k s fs vis := by
  rw [scanListAux, if_pos hexp]

/-- Field loop: an exported fully-dynamic field fails at once. -/
theorem scanListAux_cons_iface (amv asv : Bool)
    (k : String → List String → Option (Except ScanErr (List String)))
    (s : String) (fl : Field) (fs : List Field) (vis : List String)
    (hexp : fl.exported = true) (hd : derefPtr fl.ty = Ty.iface) :
    scanListAux amv asv k s (fl :: fs) vis
      = some (.error (.ifaceField s fl.fname)) := by
  rw [scanListAux, if_neg (by simp [hexp]), hd]

/-- Field loop: an exported map-kind field either fails or is passed
over, depending on its value kind and the allow flag. -/
theorem scanListAux_cons_map (amv asv : Bool)
    (k : String → List String → Option (Except ScanErr (List String)))
    (s : String) (fl : Field) (fs : List Field) (vis : List String)
    (kt vt : Ty) (hexp : fl.exported = true)
    (hd : derefPtr fl.ty = Ty.mapTy kt vt) :
    scanListAux amv asv k s (fl :: fs) vis
      = if (vt.isIfaceKind && !amv) = true
        then some (.error (.mapIfaceField s fl.fname))
        else scanListAux amv asv k s fs vis := by
  rw [scanListAux, if_neg (by simp [hexp]), hd]

/-- Field loop: an exported slice-kind field either fails or is passed
over, depending on its dereferenced element kind and the allow flag. -/
theorem scanListAux_cons_slice (amv asv : Bool)
    (k : String → List String → Option (Except ScanErr (List String)))
    (s : String) (fl : Field) (fs : List Field) (vis : List String)
    (et : Ty) (hexp : fl.exported = true)
    (hd : derefPtr fl.ty = Ty.slice et) :
    scanListAux amv asv k s (fl :: fs) vis
      = if ((derefPtr et).isIfaceKind && !asv) = true
        then some (.error (.sliceIfaceField s fl.fname))
        else scanListAux amv asv k s fs vis := by
  rw [scanListAux, if_neg (by simp [hexp]), hd]

/-- Field loop: recursing into an exported struct field whose scan
gives up. -/
theorem scanListAux_cons_struct_none (amv asv : Bool)
    (k : String → List String → Option (Except ScanErr (List String)))
    (s : String) (fl : Field) (fs : List Field) (vis : List String)
    (t : String) (hexp : fl.exported = true)
    (hd : derefPtr fl.ty = Ty.structRef t) (hk : k t vis = none) :
    scanListAux amv asv k s (fl :: fs) vis = none := by
  rw [scanListAux, if_neg (by simp [hexp]), hd]
  show (match k t vis with
    | none => none
    | some (.error e) => some (.error e)
    | some (.ok vis') => scanListAux amv asv k s fs vis') = none
  rw [hk]

/-- Field loop: recursing into an exported struct field whose scan
fails propagates the failure. -/
theorem scanListAux_cons_struct_error (amv asv : Bool)
    (k : String → List String → Option (Except ScanErr (List String)))
    (s : String) (fl : Field) (fs : List Field) (vis : List String)
    (t : String) (e : ScanErr) (hexp : fl.exported = true)
    (hd : derefPtr fl.ty = Ty.structRef t) (hk : k t vis = some (.error e)) :
    scanListAux amv asv k s (fl :: fs) vis = some (.error e) := by
  rw [scanListAux, if_neg (by simp [hexp]), hd]
  show (match k t vis with
    | none => none
    | some (.error e) => some (.error e)
    | some (.ok vis') => scanListAux amv asv k s fs vis') = some (.error e)
  rw [hk]

/-- Field loop: recursing into an exported struct field whose scan
succeeds continues with the grown visited list. -/
theorem scanListAux_cons_struct_ok (amv asv : Bool)
    (k : String → List String → Option (Except ScanErr (List String)))
    (s : String) (fl : Field) (fs : List Field) (vis vis' : List String)
    (t : String) (hexp : fl.exported = true)
    (hd : derefPtr fl.ty = Ty.structRef t) (hk : k t vis = some (.ok vis')) :
    scanListAux amv asv k s (fl :: fs) vis = scanListAux amv asv k s fs vis' := by
  rw [scanListAux, if_neg (by simp [hexp]), hd]
  show (match k t vis with
    | none => none
    | some (.error e) => some (.error e)
    | some (.ok w) => scanListAux amv asv k s fs w)
    = scanListAux amv asv k s fs vis'
  rw [hk]

/-- Field loop: an exported pointer-kind leftover is passed over (the
dereferencer never actually returns this shape). -/
theorem scanListAux_cons_ptr (amv asv : Bool)
    (k : String → List String → Option (Except ScanErr (List String)))
    (s : String) (fl : Field) (fs : List Field) (vis : List String)
    (u : Ty) (hexp : fl.exported = true) (hd : derefPtr fl.ty = Ty.ptr u) :
    scanListAux amv asv k s (fl :: fs) vis = scanListAux amv asv k s fs vis := by
  rw [scanListAux, if_neg (by simp [hexp]), hd]

/-- Field loop: an exported scalar field is passed over. -/
theorem scanListAux_cons_base (amv asv : Bool)
    (k : String → List String → Option (Except ScanErr (List String)))
    (s : String) (fl : Field) (fs : List Field) (vis : List String)
    (b : String) (hexp : fl.exported = true) (hd : derefPtr fl.ty = Ty.base b) :
    scanListAux amv asv k s (fl :: fs) vis = scanListAux amv asv k s fs vis := by
  rw [scanListAux, if_neg (by simp [hexp]), hd]

/-- The field loop only grows the visited list. -/
theorem scanListAux_mono (amv asv : Bool)
    (k : String → List String → Option (Except ScanErr (List String)))
    (hk : ∀ s vis r, k s vis = some (.ok r) → vis ⊆ r) :
    ∀ (fs : List Field) (s : String) (vis r : List String),
      scanListAux amv asv k s fs vis = some (.ok r) → vis ⊆ r
  | [], s, vis, r, h => by
    rw [scanListAux_nil] at h
    cases h
    exact List.Subset.refl _
  | fl :: fs, s, vis, r, h => by
    cases hexp : fl.exported with
    | false =>
      rw [scanListAux_cons_skip amv asv k s fl fs vis hexp] at h
      exact scanListAux_mono amv asv k hk fs s vis r h
    | true =>
      rcases hd : derefPtr fl.ty with u | _ | ⟨kt, vt⟩ | et | t | b
      · rw [scanListAux_cons_ptr amv asv k s fl fs vis u hexp hd] at h
        exact scanListAux_mono amv asv k hk fs s vis r h
      · rw [scanListAux_cons_iface amv asv k s fl fs vis hexp hd] at h
        exact absurd h (by simp)
      · rw [scanListAux_cons_map amv asv k s fl fs vis kt vt hexp hd] at h
        split_ifs at h with hc
        · exact absurd h (by simp)
        · exact scanListAux_mono amv asv k hk fs s vis r h
      · rw [scanListAux_cons_slice amv asv k s fl fs vis et hexp hd] at h
        split_ifs at h with hc
        · exact absurd h (by simp)
        · exact scanListAux_mono amv asv k hk fs s vis r h
      · rcases hkr : k t vis with _ | ke
        · rw [scanListAux_cons_struct_none amv asv k s fl fs vis t hexp hd hkr] at h
          exact absurd h (by simp)
        · rcases ke with e | vis'
          · rw [scanListAux_cons_struct_error amv asv k s fl fs vis t e hexp hd hkr] at h
            exact absurd h (by simp)
          · rw [scanListAux_cons_struct_ok amv asv k s fl fs vis vis' t hexp hd hkr] at h
            exact Trans.trans (hk t vis vis' hkr)
              (scanListAux_mono amv asv k hk fs s vis' r h)
      · rw [scanListAux_cons_base amv asv k s fl fs vis b hexp hd] at h
        exact scanListAux_mono amv asv k hk fs s vis r h

/-- The scanner only grows the visited list. -/
theorem scanFields_mono (env : Env) (amv asv : Bool) :
    ∀ (fuel : Nat) (s : String) (vis r : List String),
      scanFields env amv asv fuel s vis = some (.ok r) → vis ⊆ r
  | fuel, s, vis, r, h => by
    by_cases hvis : s ∈ vis
    · rw [scanFields_visited env amv asv fuel s vis hvis] at h
      cases h
      exact List.Subset.refl _
    · cases fuel with
      | zero =>
        rw [scanFields_zero env amv asv s vis hvis] at h
        exact absurd h (by simp)
      | succ fuel' =>
        rw [scanFields_succ env amv asv fuel' s vis hvis] at h
        have := scanListAux_mono amv asv (scanFields env amv asv fuel')
          (fun a b c => scanFields_mono env amv asv fuel' a b c)
          (lookupFields env s) s (s :: vis) r h
        exact fun x hx => this (List.mem_cons_of_mem s hx)

/-- A successful scan records the scanned struct as visited. -/
theorem scanFields_mem (env : Env) (amv asv : Bool) (fuel : Nat)
    (s : String) (vis r : List String)
    (h : scanFields env amv asv fuel s vis = some (.ok r)) : s ∈ r := by
  by_cases hvis : s ∈ vis
  · rw [scanFields_visited env amv asv fuel s vis hvis] at h
    cases h
    exact hvis
  · cases fuel with
    | zero =>
      rw [scanFields_zero env amv asv s vis hvis] at h
      exact absurd h (by simp)
    | succ fuel' =>
      rw [scanFields_succ env amv asv fuel' s vis hvis] at h
      exact scanListAux_mono amv asv (scanFields env amv asv fuel')
        (fun a b c => scanFields_mono env amv asv fuel' a b c)
        (lookupFields env s) s (s :: vis) r h (List.mem_cons_self s vis)

/-- A successful field loop certifies both that none of the processed
exported fields is flagged and that every newly visited struct is
clean. -/
theorem scanListAux_ok_props (env : Env) (amv asv : Bool)
    (k : String → List String → Option (Except ScanErr (List String)))
    (hkmono : ∀ s vis r, k s vis = some (.ok r) → vis ⊆ r)
    (hkclean : ∀ s vis r, k s vis = some (.ok r) →
      ∀ x ∈ r, x ∉ vis → CleanDirect env amv asv x) :
    ∀ (fs : List Field) (s : String) (vis r : List String),
      scanListAux amv asv k s fs vis = some (.ok r) →
      (∀ fl ∈ fs, fl.exported = true →
        badFieldTy amv asv (derefPtr fl.ty) = false)
      ∧ (∀ x ∈ r, x ∉ vis → CleanDirect env amv asv x)
  | [], s, vis, r, h => by
    rw [scanListAux_nil] at h
    cases h
    exact ⟨fun fl hfl => absurd hfl (List.not_mem_nil fl),
      fun x hx hnx => absurd hx hnx⟩
  | fl :: fs, s, vis, r, h => by
    cases hexp : fl.exported with
    | false =>
      rw [scanListAux_cons_skip amv asv k s fl fs vis hexp] at h
      have ih := scanListAux_ok_props env amv asv k hkmono hkclean fs s vis r h
      refine ⟨?_, ih.2⟩
      intro g hg hge
      rcases List.mem_cons.mp hg with rfl | hg'
      · exact absurd hge (by simp [hexp])
      · exact ih.1 g hg' hge
    | true =>
      rcases hd : derefPtr fl.ty with u | _ | ⟨kt, vt⟩ | et | t | b
      · rw [scanListAux_cons_ptr amv asv k s fl fs vis u hexp hd] at h
        have ih := scanListAux_ok_props env amv asv k hkmono hkclean fs s vis r h
        refine ⟨?_, ih.2⟩
        intro g hg hge
        rcases List.mem_cons.mp hg with rfl | hg'
        · rw [hd]
          rfl
        · exact ih.1 g hg' hge
      · rw [scanListAux_cons_iface amv asv k s fl fs vis hexp hd] at h
        exact absurd h (by simp)
      · rw [scanListAux_cons_map amv asv k s fl fs vis kt vt hexp hd] at h
        split_ifs at h with hc
        · exact absurd h (by simp)
        · have ih := scanListAux_ok_props env amv asv k hkmono hkclean fs s vis r h
          refine ⟨?_, ih.2⟩
          intro g hg hge
          rcases List.mem_cons.mp hg with rfl | hg'
          · rw [hd]
            simpa [badFieldTy] using hc
          · exact ih.1 g hg' hge
      · rw [scanListAux_cons_slice amv asv k s fl fs vis et hexp hd] at h
        split_ifs at h with hc
        · exact absurd h (by simp)
        · have ih := scanListAux_ok_props env amv asv k hkmono hkclean fs s vis r h
          refine ⟨?_, ih.2⟩
          intro g hg hge
          rcases List.mem_cons.mp hg with rfl | hg'
          · rw [hd]
            simpa [badFieldTy] using hc
          · exact ih.1 g hg' hge
      · rcases hkr : k t vis with _ | ke
        · rw [scanListAux_cons_struct_none amv asv k s fl fs vis t hexp hd hkr] at h
          exact absurd h (by simp)
        · rcases ke with e | vis'
          · rw [scanListAux_cons_struct_error amv asv k s fl fs vis t e hexp hd hkr] at h
            exact absurd h (by simp)
          · rw [scanListAux_cons_struct_ok amv asv k s fl fs vis vis' t hexp hd hkr] at h
            have ih := scanListAux_ok_props env amv asv k hkmono hkclean fs s vis' r h
            have hsub : vis' ⊆ r :=
              scanListAux_mono amv asv k hkmono fs s vis' r h
            refine ⟨?_, ?_⟩
            · intro g hg hge
              rcases List.mem_cons.mp hg with rfl | hg'
              · rw [hd]
                rfl
              · exact ih.1 g hg' hge
            · intro x hx hnx
              by_cases hx' : x ∈ vis'
              · exact hkclean t vis vis' hkr x hx' hnx
              · exact ih.2 x hx hx'
      · rw [scanListAux_cons_base amv asv k s fl fs vis b hexp hd] at h
        have ih := scanListAux_ok_props env amv asv k hkmono hkclean fs s vis r h
        refine ⟨?_, ih.2⟩
        intro g hg hge
        rcases List.mem_cons.mp hg with rfl | hg'
        · rw [hd]
          rfl
        · exact ih.1 g hg' hge

/-- Every struct newly recorded as visited by a successful scan is
clean: its exported fields carry no flagged type. -/
theorem scanFields_ok_clean (env : Env) (amv asv : Bool) :
    ∀ (fuel : Nat) (s : String) (vis r : List String),
      scanFields env amv asv fuel s vis = some (.ok r) →
      ∀ x ∈ r, x ∉ vis → CleanDirect env amv asv x
  | fuel, s, vis, r, h => by
    by_cases hvis : s ∈ vis
    · rw [scanFields_visited env amv asv fuel s vis hvis] at h
      cases h
      exact fun x hx hnx => absurd hx hnx
    · cases fuel with
      | zero =>
        rw [scanFields_zero env amv asv s vis hvis] at h
        exact absurd h (by simp)
      | succ fuel' =>
        rw [scanFields_succ env amv asv fuel' s vis hvis] at h
        have ih := scanListAux_ok_props env amv asv (scanFields env amv asv fuel')
          (fun a b c => scanFields_mono env amv asv fuel' a b c)
          (fun a b c hab => scanFields_ok_clean env amv asv fuel' a b c hab)
          (lookupFields env s) s (s :: vis) r h
        intro x hx hnx
        by_cases hxs : x = s
        · subst hxs
          exact fun g hg hge => ih.1 g hg hge
        · exact ih.2 x hx (by simp [hnx, hxs])

/-- A successful field loop visits the struct successor of every
processed exported struct field, and keeps the visited set closed under
successors for nodes other than the current struct. -/
theorem scanListAux_ok_closure (env : Env) (amv asv : Bool)
    (k : String → List String → Option (Except ScanErr (List String)))
    (hkmono : ∀ s vis r, k s vis = some (.ok r) → vis ⊆ r)
    (hkmem : ∀ s vis r, k s vis = some (.ok r) → s ∈ r)
    (hkclosed : ∀ s vis r, k s vis = some (.ok r) →
      ∀ x ∈ r, x ∉ vis → ∀ t, succTy env x t → t ∈ r) :
    ∀ (fs : List Field) (s : String) (vis r : List String),
      scanListAux amv asv k s fs vis = some (.ok r) →
      (∀ fl ∈ fs, fl.exported = true →
        ∀ t, derefPtr fl.ty = Ty.structRef t → t ∈ r)
      ∧ (∀ x ∈ r, x ∉ vis → x ≠ s → ∀ t, succTy env x t → t ∈ r)
  | [], s, vis, r, h => by
    rw [scanListAux_nil] at h
    cases h
    exact ⟨fun fl hfl => absurd hfl (List.not_mem_nil fl),
      fun x hx hnx => absurd hx hnx⟩
  | fl :: fs, s, vis, r, h => by
    cases hexp : fl.exported with
    | false =>
      rw [scanListAux_cons_skip amv asv k s fl fs vis hexp] at h
      have ih := scanListAux_ok_closure env amv asv k hkmono hkmem hkclosed fs s vis r h
      refine ⟨?_, ih.2⟩
      intro g hg hge
      rcases List.mem_cons.mp hg with rfl | hg'
      · exact absurd hge (by simp [hexp])
      · exact ih.1 g hg' hge
    | true =>
      rcases hd : derefPtr fl.ty with u | _ | ⟨kt, vt⟩ | et | t | b
      · rw [scanListAux_cons_ptr amv asv k s fl fs vis u hexp hd] at h
        have ih := scanListAux_ok_closure env amv asv k hkmono hkmem hkclosed fs s vis r h
        refine ⟨?_, ih.2⟩
        intro g hg hge t' hd'
        rcases List.mem_cons.mp hg with rfl | hg'
        · rw [hd] at hd'
          exact Ty.noConfusion hd'
        · exact ih.1 g hg' hge t' hd'
      · rw [scanListAux_cons_iface amv asv k s fl fs vis hexp hd] at h
        exact absurd h (by simp)
      · rw [scanListAux_cons_map amv asv k s fl fs vis kt vt hexp hd] at h
        split_ifs at h with hc
        · exact absurd h (by simp)
        · have ih := scanListAux_ok_closure env amv asv k hkmono hkmem hkclosed fs s vis r h
          refine ⟨?_, ih.2⟩
          intro g hg hge t' hd'
          rcases List.mem_cons.mp hg with rfl | hg'
          · rw [hd] at hd'
            exact Ty.noConfusion hd'
          · exact ih.1 g hg' hge t' hd'
      · rw [scanListAux_cons_slice amv asv k s fl fs vis et hexp hd] at h
        split_ifs at h with hc
        · exact absurd h (by simp)
        · have ih := scanListAux_ok_closure env amv asv k hkmono hkmem hkclosed fs s vis r h
          refine ⟨?_, ih.2⟩
          intro g hg hge t' hd'
          rcases List.mem_cons.mp hg with rfl | hg'
          · rw [hd] at hd'
            exact Ty.noConfusion hd'
          · exact ih.1 g hg' hge t' hd'
      · rcases hkr : k t vis with _ | ke
        · rw [scanListAux_cons_struct_none amv asv k s fl fs vis t hexp hd hkr] at h
          exact absurd h (by simp)
        · rcases ke with e | vis'
          · rw [scanListAux_cons_struct_error amv asv k s fl fs vis t e hexp hd hkr] at h
            exact absurd h (by simp)
          · rw [scanListAux_cons_struct_ok amv asv k s fl fs vis vis' t hexp hd hkr] at h
            have ih := scanListAux_ok_closure env amv asv k hkmono hkmem hkclosed fs s vis' r h
            have hsub : vis' ⊆ r :=
              scanListAux_mono amv asv k hkmono fs s vis' r h
            refine ⟨?_, ?_⟩
            · intro g hg hge t' hd'
              rcases List.mem_cons.mp hg with rfl | hg'
              · rw [hd] at hd'
                cases hd'
                exact hsub (hkmem t vis vis' hkr)
              · exact ih.1 g hg' hge t' hd'
            · intro x hx hnx hxs t' hsucc
              by_cases hx' : x ∈ vis'
              · exact hsub (hkclosed t vis vis' hkr x hx' hnx t' hsucc)
              · exact ih.2 x hx hx' hxs t' hsucc
      · rw [scanListAux_cons_base amv asv k s fl fs vis b hexp hd] at h
        have ih := scanListAux_ok_closure env amv asv k hkmono hkmem hkclosed fs s vis r h
        refine ⟨?_, ih.2⟩
        intro g hg hge t' hd'
        rcases List.mem_cons.mp hg with rfl | hg'
        · rw [hd] at hd'
          exact Ty.noConfusion hd'
        · exact ih.1 g hg' hge t' hd'

/-- After a successful scan, the recorded visited set is closed under
scan successors of its new members. -/
theorem scanFields_ok_closure (env : Env) (amv asv : Bool) :
    ∀ (fuel : Nat) (s : String) (vis r : List String),
      scanFields env amv asv fuel s vis = some (.ok r) →
      ∀ x ∈ r, x ∉ vis → ∀ t, succTy env x t → t ∈ r
  | fuel, s, vis, r, h => by
    by_cases hvis : s ∈ vis
    · rw [scanFields_visited env amv asv fuel s vis hvis] at h
      cases h
      exact fun x hx hnx => absurd hx hnx
    · cases fuel with
      | zero =>
        rw [scanFields_zero env amv asv s vis hvis] at h
        exact absurd h (by simp)
      | succ fuel' =>
        rw [scanFields_succ env amv asv fuel' s vis hvis] at h
        have ih := scanListAux_ok_closure env amv asv (scanFields env amv asv fuel')
          (fun a b c => scanFields_mono env amv asv fuel' a b c)
          (fun a b c => scanFields_mem env amv asv fuel' a b c)
          (fun a b c hab => scanFields_ok_closure env amv asv fuel' a b c hab)
          (lookupFields env s) s (s :: vis) r h
        intro x hx hnx t hsucc
        by_cases hxs : x = s
        · subst hxs
          obtain ⟨fl, hfl, hfe, hfd⟩ := hsucc
          exact ih.1 fl hfl hfe t hfd
        · exact ih.2 x hx (by simp [hnx, hxs]) hxs t hsucc

/-- Starting from an empty visited list, a successful scan has visited
every struct reachable from the root. -/
theorem scanFields_reach_mem (env : Env) (amv asv : Bool) (fuel : Nat)
    (s : String) (r : List String)
    (h : scanFields env amv asv fuel s [] = some (.ok r)) :
    ∀ x, Reach env s x → x ∈ r := by
  have key : ∀ a c, Reach env a c → a ∈ r → c ∈ r := by
    intro a c hac
    induction hac with
    | refl => exact id
    | step hsucc _ ih =>
      intro ha
      exact ih (scanFields_ok_closure env amv asv fuel s [] r h _ ha
        (List.not_mem_nil _) _ hsucc)
  exact fun x hr => key s x hr (scanFields_mem env amv asv fuel s [] r h)

/-- Completeness: when a flagged exported field is reachable from the
root, no amount of fuel lets the scan succeed. -/
theorem scanFields_not_ok_of_reachesBad (env : Env) (amv asv : Bool)
    (s : String) (hreach : ReachesBad env amv asv s) :
    ∀ (fuel : Nat) (r : List String),
      scanFields env amv asv fuel s [] ≠ some (.ok r) := by
  intro fuel r h
  obtain ⟨x, hrx, fl, hfl, hexp, hbad⟩ := hreach
  have hx : x ∈ r := scanFields_reach_mem env amv asv fuel s r h x hrx
  have hclean := scanFields_ok_clean env amv asv fuel s [] r h x hx
    (List.not_mem_nil x) fl hfl hexp
  rw [hbad] at hclean
  exact Bool.noConfusion hclean

/-- Soundness of the field loop: an error it returns names a genuine
flagged exported field (given that the processed fields really are
fields of the named struct, and that the recursive scan is itself
sound). -/
theorem scanListAux_error_valid (env : Env) (amv asv : Bool)
    (k : String → List String → Option (Except ScanErr (List String)))
    (hk : ∀ t vis e, k t vis = some (.error e) → scanErrValid env amv asv e) :
    ∀ (fs : List Field) (s : String) (vis : List String) (e : ScanErr),
      (∀ fl ∈ fs, fl ∈ lookupFields env s) →
      scanListAux amv asv k s fs vis = some (.error e) →
      scanErrValid env amv asv e
  | [], s, vis, e, _, h => by
    rw [scanListAux_nil] at h
    exact absurd h (by simp)
  | fl :: fs, s, vis, e, hsub, h => by
    have hsub' : ∀ g ∈ fs, g ∈ lookupFields env s :=
      fun g hg => hsub g (List.mem_cons_of_mem fl hg)
    cases hexp : fl.exported with
    | false =>
      rw [scanListAux_cons_skip amv asv k s fl fs vis hexp] at h
      exact scanListAux_error_valid env amv asv k hk fs s vis e hsub' h
    | true =>
      rcases hd : derefPtr fl.ty with u | _ | ⟨kt, vt⟩ | et | t | b
      · rw [scanListAux_cons_ptr amv asv k s fl fs vis u hexp hd] at h
        exact scanListAux_error_valid env amv asv k hk fs s vis e hsub' h
      · rw [scanListAux_cons_iface amv asv k s fl fs vis hexp hd] at h
        cases h
        exact ⟨fl, hsub fl (List.mem_cons_self fl fs), hexp, rfl, hd⟩
      · rw [scanListAux_cons_map amv asv k s fl fs vis kt vt hexp hd] at h
        split_ifs at h with hc
        · cases h
          simp only [Bool.and_eq_true, Bool.not_eq_true'] at hc
          exact ⟨fl, hsub fl (List.mem_cons_self fl fs), hexp, rfl,
            ⟨kt, vt, hd, hc.1⟩, hc.2⟩
        · exact scanListAux_error_valid env amv asv k hk fs s vis e hsub' h
      · rw [scanListAux_cons_slice amv asv k s fl fs vis et hexp hd] at h
        split_ifs at h with hc
        · cases h
          simp only [Bool.and_eq_true, Bool.not_eq_true'] at hc
          exact ⟨fl, hsub fl (List.mem_cons_self fl fs), hexp, rfl,
            ⟨et, hd, hc.1⟩, hc.2⟩
        · exact scanListAux_error_valid env amv asv k hk fs s vis e hsub' h
      · rcases hkr : k t vis with _ | ke
        · rw [scanListAux_cons_struct_none amv asv k s fl fs vis t hexp hd hkr] at h
          exact absurd h (by simp)
        · rcases ke with e' | vis'
          · rw [scanListAux_cons_struct_error amv asv k s fl fs vis t e' hexp hd hkr] at h
            have he : e' = e := by
              injection h with h1
              injection h1
            subst he
            exact hk t vis e' hkr
          · rw [scanListAux_cons_struct_ok amv asv k s fl fs vis vis' t hexp hd hkr] at h
            exact scanListAux_error_valid env amv asv k hk fs s vis' e hsub' h
      · rw [scanListAux_cons_base amv asv k s fl fs vis b hexp hd] at h
        exact scanListAux_error_valid env amv asv k hk fs s vis e hsub' h

/-- Soundness of the scanner: every error it returns names a struct and
an exported field of it whose dereferenced type is flagged exactly as
the error says. -/
theorem scanFields_error_valid (env : Env) (amv asv : Bool) :
    ∀ (fuel : Nat) (s : String) (vis : List String) (e : ScanErr),
      scanFields env amv asv fuel s vis = some (.error e) →
      scanErrValid env amv asv e
  | fuel, s, vis, e, h => by
    by_cases hvis : s ∈ vis
    · rw [scanFields_visited env amv asv fuel s vis hvis] at h
      exact absurd h (by simp)
    · cases fuel with
      | zero =>
        rw [scanFields_zero env amv asv s vis hvis] at h
        exact absurd h (by simp)
      | succ fuel' =>
        rw [scanFields_succ env amv asv fuel' s vis hvis] at h
        exact scanListAux_error_valid env amv asv (scanFields env amv asv fuel')
          (fun a b c hab => scanFields_error_valid env amv asv fuel' a b c hab)
          (lookupFields env s) s (s :: vis) e (fun _ hg => hg) h

/-- Number of struct names of the environment not yet visited. -/
def unvisited (env : Env) (vis : List String) : Nat :=
  (((env.map Prod.fst).dedup).filter (fun n => n ∉ vis)).length

/-- Filtering with a stronger predicate keeps fewer elements. -/
theorem length_filter_imp {α : Type} (p q : α → Bool)
    (h : ∀ a, q a = true → p a = true) :
    ∀ l : List α, (l.filter q).length ≤ (l.filter p).length
  | [] => Nat.le.refl
  | a :: t => by
    cases hq : q a with
    | true =>
      rw [List.filter_cons_of_pos hq, List.filter_cons_of_pos (h a hq)]
      exact Nat.succ_le_succ (length_filter_imp p q h t)
    | false =>
      rw [List.filter_cons_of_neg (by simp [hq])]
      cases hp : p a with
      | true =>
        rw [List.filter_cons_of_pos hp]
        exact Nat.le_succ_of_le (length_filter_imp p q h t)
      | false =>
        rw [List.filter_cons_of_neg (by simp [hp])]
        exact length_filter_imp p q h t

/-- Growing the visited list cannot increase the unvisited count. -/
theorem unvisited_le_of_subset (env : Env) (vis vis' : List String)
    (h : vis ⊆ vis') : unvisited env vis' ≤ unvisited env vis := by
  refine length_filter_imp _ _ ?_ _
  intro a ha
  simp only [decide_eq_true_eq] at ha ⊢
  exact fun hmem => ha (h hmem)

/-- Visiting a present, unvisited name strictly shrinks the count. -/
theorem length_filter_cons_lt (s : String) (vis : List String)
    (hv : s ∉ vis) :
    ∀ l : List String, s ∈ l →
      (l.filter (fun n => n ∉ s :: vis)).length
        < (l.filter (fun n => n ∉ vis)).length
  | a :: t, hmem => by
    by_cases has : a = s
    · subst has
      rw [List.filter_cons_of_neg (by simp), List.filter_cons_of_pos (by simpa using hv)]
      refine Nat.lt_succ_of_le (length_filter_imp _ _ ?_ t)
      intro x hx
      simp only [decide_eq_true_eq, List.mem_cons, not_or] at hx ⊢
      exact hx.2
    · have hmem' : s ∈ t := by
        rcases List.mem_cons.mp hmem with h | h
        · exact absurd h.symm has
        · exact h
      by_cases hav : a ∈ vis
      · rw [List.filter_cons_of_neg (by simp [hav]),
          List.filter_cons_of_neg (by simp [hav])]
        exact length_filter_cons_lt s vis hv t hmem'
      · rw [List.filter_cons_of_pos (by simp [hav, has]),
          List.filter_cons_of_pos (by simpa using hav)]
        exact Nat.succ_lt_succ (length_filter_cons_lt s vis hv t hmem')

/-- Visiting a present, unvisited struct name strictly shrinks the
unvisited count. -/
theorem unvisited_cons_lt (env : Env) (s : String) (vis : List String)
    (hs : s ∈ env.map Prod.fst) (hv : s ∉ vis) :
    unvisited env (s :: vis) < unvisited env vis :=
  length_filter_cons_lt s vis hv _ (List.mem_dedup.mpr hs)

/-- The unvisited count is bounded by the environment size. -/
theorem unvisited_le_length (env : Env) (vis : List String) :
    unvisited env vis ≤ env.length := by
  calc unvisited env vis
      ≤ ((env.map Prod.fst).dedup).length := List.length_filter_le _ _
    _ ≤ (env.map Prod.fst).length := (List.dedup_sublist _).length_le
    _ = env.length := List.length_map _ _

/-- A name absent from the environment has no fields. -/
theorem lookupFields_eq_nil (env : Env) (s : String)
    (h : s ∉ env.map Prod.fst) : lookupFields env s = [] := by
  rw [lookupFields]
  have : env.find? (fun p => p.1 = s) = none := by
    rw [List.find?_eq_none]
    intro p hp
    simp only [decide_eq_true_eq]
    intro hEq
    exact h (hEq ▸ List.mem_map_of_mem Prod.fst hp)
  rw [this]

/-- The field loop cannot run out of fuel while the recursive scan has
fuel for every still-unvisited struct. -/
theorem scanListAux_isSome_aux (env : Env) (amv asv : Bool)
    (k : String → List String → Option (Except ScanErr (List String)))
    (hkmono : ∀ s vis r, k s vis = some (.ok r) → vis ⊆ r)
    (g : Nat)
    (hksome : ∀ t vis, unvisited env vis < g → (k t vis).isSome = true) :
    ∀ (fs : List Field) (s : String) (vis : List String),
      unvisited env vis < g →
      (scanListAux amv asv k s fs vis).isSome = true
  | [], s, vis, _ => by rw [scanListAux_nil]; rfl
  | fl :: fs, s, vis, hlt => by
    cases hexp : fl.exported with
    | false =>
      rw [scanListAux_cons_skip amv asv k s fl fs vis hexp]
      exact scanListAux_isSome_aux env amv asv k hkmono g hksome fs s vis hlt
    | true =>
      rcases hd : derefPtr fl.ty with u | _ | ⟨kt, vt⟩ | et | t | b
      · rw [scanListAux_cons_ptr amv asv k s fl fs vis u hexp hd]
        exact scanListAux_isSome_aux env amv asv k hkmono g hksome fs s vis hlt
      · rw [scanListAux_cons_iface amv asv k s fl fs vis hexp hd]
        rfl
      · rw [scanListAux_cons_map amv asv k s fl fs vis kt vt hexp hd]
        split_ifs with hc
        · rfl
        · exact scanListAux_isSome_aux env amv asv k hkmono g hksome fs s vis hlt
      · rw [scanListAux_cons_slice amv asv k s fl fs vis et hexp hd]
        split_ifs with hc
        · rfl
        · exact scanListAux_isSome_aux env amv asv k hkmono g hksome fs s vis hlt
      · have hsome := hksome t vis hlt
        rcases hkr : k t vis with _ | ke
        · rw [hkr] at hsome
          exact absurd hsome (by simp)
        · rcases ke with e | vis'
          · rw [scanListAux_cons_struct_error amv asv k s fl fs vis t e hexp hd hkr]
            rfl
          · rw [scanListAux_cons_struct_ok amv asv k s fl fs vis vis' t hexp hd hkr]
            have hle : unvisited env vis' ≤ unvisited env vis :=
              unvisited_le_of_subset env vis vis' (hkmono t vis vis' hkr)
            exact scanListAux_isSome_aux env amv asv k hkmono g hksome fs s vis'
              (Nat.lt_of_le_of_lt hle hlt)
      · rw [scanListAux_cons_base amv asv k s fl fs vis b hexp hd]
        exact scanListAux_isSome_aux env amv asv k hkmono g hksome fs s vis hlt

/-- Fuel sufficiency: fuel exceeding the unvisited count never runs
out. -/
theorem scanFields_isSome (env : Env) (amv asv : Bool) :
    ∀ (g : Nat) (s : String) (vis : List String),
      unvisited env vis < g →
      (scanFields env amv asv g s vis).isSome = true
  | g, s, vis, hlt => by
    by_cases hvis : s ∈ vis
    · rw [scanFields_visited env amv asv g s vis hvis]
      rfl
    · cases g with
      | zero => exact absurd hlt (Nat.not_lt_zero _)
      | succ g' =>
        rw [scanFields_succ env amv asv g' s vis hvis]
        by_cases hs : s ∈ env.map Prod.fst
        · have hlt' : unvisited env (s :: vis) < g' := by
            have h1 : unvisited env (s :: vis) < unvisited env vis :=
              unvisited_cons_lt env s vis hs hvis
            omega
          exact scanListAux_isSome_aux env amv asv (scanFields env amv asv g')
            (fun a b c => scanFields_mono env amv asv g' a b c) g'
            (fun t w hw => scanFields_isSome env amv asv g' t w hw)
            (lookupFields env s) s (s :: vis) hlt'
        · rw [lookupFields_eq_nil env s hs, scanListAux_nil]
          rfl

/-- The fuel `env.length + 1` used by `validateTarget` always
suffices. -/
theorem scanFields_total (env : Env) (amv asv : Bool) (s : String) :
    (scanFields env amv asv (env.length + 1) s []).isSome = true :=
  scanFields_isSome env amv asv (env.length + 1) s []
    (Nat.lt_succ_of_le (unvisited_le_length env []))

/-! ## Claim C9 — scanner termination -/

/-- Claim C9: the struct-field scanner terminates on every type graph,
self- and mutually-referential ones included.  A record already in the
visited set returns success immediately, at any fuel, before any
recursion; and because each record is marked visited before its fields
are recursed into, fuel `env.length + 1` — one visit per distinct type
plus the root step — never runs out. -/
theorem c9_scanner_terminates (env : Env) (amv asv : Bool) (s : String) :
    (scanFields env amv asv (env.length + 1) s []).isSome = true
    ∧ (∀ (fuel : Nat) (vis : List String), s ∈ vis →
        scanFields env amv asv fuel s vis = some (.ok vis)) :=
  ⟨scanFields_total env amv asv s,
   fun fuel vis h => scanFields_visited env amv asv fuel s vis h⟩

/-- A mutually recursive pair of record types. -/
def envCyclic : Env :=
  [("A", [⟨"B", true, Ty.structRef "B"⟩]),
   ("B", [⟨"A", true, Ty.structRef "A"⟩])]

/-- Witness for C9: the scan of a mutually recursive type graph
completes within the bound, and the cycle guard answers immediately even
with no fuel. -/
theorem c9_witness :
    (scanFields envCyclic false false (envCyclic.length + 1) "A" []).isSome = true
    ∧ scanFields envCyclic false false 0 "A" ["A"] = some (.ok ["A"]) :=
  ⟨(c9_scanner_terminates envCyclic false false "A").1,
   (c9_scanner_terminates envCyclic false false "A").2 0 ["A"] (by simp)⟩

/-! ## Claim C3 — strict mode rejects reachable dynamic fields -/

/-- Claim C3: when a record type reachable from the destination type
through exported struct fields has an exported field whose dereferenced
type is fully dynamic, a dynamic-valued map, or a dynamic-element slice
(the latter two not being allowed by the options), strict-mode target
validation fails with a struct-field error naming a genuinely offending
record type and field; with strict mode off (all other checks passing,
i.e. the whitelist admitting the destination) the same record type
validates successfully. -/
theorem c3_strict_scan_rejects (env : Env) (opts : Options) (s : String)
    (hreach : ReachesBad env opts.allowMapStringInterface
      opts.allowSliceInterface s)
    (hwl : opts.allowedTypes = []
      ∨ typeString (Ty.structRef s) ∈ opts.allowedTypes) :
    (opts.strictMode = true →
      ∃ e, validateTarget env opts (GoVal.ptrTo (Ty.structRef s))
          = some (.error (.structField e))
        ∧ scanErrValid env opts.allowMapStringInterface
            opts.allowSliceInterface e)
    ∧ (opts.strictMode = false →
      validateTarget env opts (GoVal.ptrTo (Ty.structRef s))
        = some (.ok ())) := by
  have hwlcond : (!opts.allowedTypes.isEmpty
      && !(opts.allowedTypes.contains (typeString (Ty.structRef s)))) = false := by
    rcases hwl with h | h
    · rw [h]
      rfl
    · simp [h]
  constructor
  · intro hs
    have hterm := scanFields_total env opts.allowMapStringInterface
      opts.allowSliceInterface s
    rcases hscan : scanFields env opts.allowMapStringInterface
        opts.allowSliceInterface (env.length + 1) s [] with _ | ke
    · rw [hscan] at hterm
      exact absurd hterm (by simp)
    · rcases ke with e | r
      · refine ⟨e, ?_, scanFields_error_valid env opts.allowMapStringInterface
          opts.allowSliceInterface (env.length + 1) s [] e hscan⟩
        simp [validateTarget, Ty.isIfaceKind, mapValIface,
          sliceElemIfaceShallow, hwlcond, hs, hscan]
        intro hne'
        exact hwl.resolve_left hne'
      · exact absurd hscan (scanFields_not_ok_of_reachesBad env
          opts.allowMapStringInterface opts.allowSliceInterface s hreach
          (env.length + 1) r)
  · intro hs
    simp [validateTarget, Ty.isIfaceKind, mapValIface,
      sliceElemIfaceShallow, hwlcond, hs]
    intro hne'
    exact hwl.resolve_left hne'

/-- A record type whose nested record (one exported struct field deep)
has an exported fully-dynamic field. -/
def envBadField : Env :=
  [("main.Outer", [⟨"Inner", true, Ty.structRef "main.Inner"⟩]),
   ("main.Inner", [⟨"Data", true, Ty.iface⟩])]

/-- Witness for C3: under the default (strict) options the nested
dynamic field is rejected with an error naming it, and with strict mode
off the same destination validates. -/
theorem c3_witness :
    (∃ e, validateTarget envBadField DefaultOptions
        (GoVal.ptrTo (Ty.structRef "main.Outer"))
        = some (.error (.structField e))
      ∧ scanErrValid envBadField DefaultOptions.allowMapStringInterface
          DefaultOptions.allowSliceInterface e)
    ∧ validateTarget envBadField (setStrictMode DefaultOptions false)
        (GoVal.ptrTo (Ty.structRef "main.Outer")) = some (.ok ()) := by
  have hreach : ReachesBad envBadField
      DefaultOptions.allowMapStringInterface
      DefaultOptions.allowSliceInterface "main.Outer" :=
    ⟨"main.Inner",
     Reach.step
       ⟨⟨"Inner", true, Ty.structRef "main.Inner"⟩, by decide, rfl, rfl⟩
       (Reach.refl "main.Inner"),
     ⟨"Data", true, Ty.iface⟩, by decide, rfl, rfl⟩
  exact ⟨(c3_strict_scan_rejects envBadField DefaultOptions "main.Outer"
      hreach (Or.inl rfl)).1 rfl,
    (c3_strict_scan_rejects envBadField (setStrictMode DefaultOptions false)
      "main.Outer" hreach (Or.inl rfl)).2 rfl⟩

/-! ## Claim C10 — the whitelist applies to the outermost type only -/

/-- Claim C10: when the destination's own type name appears in the
non-empty whitelist, validation behaves exactly as with no whitelist at
all — the struct-field scan never consults `allowedTypes`, so the names
of nested field types are never compared against it — and, in strict
mode, the destination passes whenever the field scan passes, regardless
of which type names the whitelist holds beyond the outermost one. -/
theorem c10_whitelist_outermost_only (env : Env) (opts : Options) (s : String)
    (_hne : opts.allowedTypes ≠ [])
    (hmem : typeString (Ty.structRef s) ∈ opts.allowedTypes) :
    validateTarget env opts (GoVal.ptrTo (Ty.structRef s))
      = validateTarget env (setAllowedTypes opts [])
          (GoVal.ptrTo (Ty.structRef s))
    ∧ (opts.strictMode = true → ∀ r,
        scanFields env opts.allowMapStringInterface opts.allowSliceInterface
          (env.length + 1) s [] = some (.ok r) →
        validateTarget env opts (GoVal.ptrTo (Ty.structRef s))
          = some (.ok ())) := by
  have hc : (!opts.allowedTypes.isEmpty
      && !(opts.allowedTypes.contains (typeString (Ty.structRef s)))) = false := by
    simp [hmem]
  constructor
  · simp [validateTarget, Ty.isIfaceKind, mapValIface, sliceElemIfaceShallow,
      hc, setAllowedTypes]
    intro h1 h2
    exact absurd hmem h2
  · intro hs r hscan
    simp [validateTarget, Ty.isIfaceKind, mapValIface, sliceElemIfaceShallow,
      hc, hs, hscan]
    exact fun _ => hmem

/-- A record whose nested record type is absent from the whitelist. -/
def envNested : Env :=
  [("main.Outer", [⟨"Inner", true, Ty.structRef "main.Inner"⟩]),
   ("main.Inner", [⟨"X", true, Ty.base "int"⟩])]

/-- Options whitelisting only the outer record type. -/
def optsOuterOnly : Options :=
  setAllowedTypes DefaultOptions ["main.Outer"]

/-- Witness for C10: with only `main.Outer` whitelisted, strict
validation passes even though `main.Inner` is not in the whitelist. -/
theorem c10_witness :
    validateTarget envNested optsOuterOnly
        (GoVal.ptrTo (Ty.structRef "main.Outer"))
      = validateTarget envNested (setAllowedTypes optsOuterOnly [])
          (GoVal.ptrTo (Ty.structRef "main.Outer"))
    ∧ validateTarget envNested optsOuterOnly
        (GoVal.ptrTo (Ty.structRef "main.Outer")) = some (.ok ()) :=
  ⟨(c10_whitelist_outermost_only envNested optsOuterOnly "main.Outer"
      (by simp [optsOuterOnly, setAllowedTypes]) (by simp [optsOuterOnly, setAllowedTypes, typeString])).1,
   (c10_whitelist_outermost_only envNested optsOuterOnly "main.Outer"
      (by simp [optsOuterOnly, setAllowedTypes]) (by simp [optsOuterOnly, setAllowedTypes, typeString])).2
     rfl ["main.Inner", "main.Outer"] rfl⟩

end SafeDeserialize
